import Mathlib

/-!
Shallow embedding of `tpu-client-next/src/workers_cache.rs`.

The module caches per-destination worker handles in a bounded LRU map and
offers two delivery paths (non-blocking and blocking-with-cancellation) plus
a graceful shutdown protocol.  The embedding models:

* the bounded mpsc channel between the cache and one worker task, as visible
  from the sender side (`Channel`);
* `WorkerInfo` with its channel, per-worker cancellation token (boolean
  state) and join handle (abstracted to the oracle `joinFails`, saying
  whether awaiting the handle fails);
* the `lru` crate's `LruCache` as used by this file, with entries kept
  most-recently-used first;
* `WorkersCache` with its operations.  A delivery call returns
  `Option SendEffect`: `none` models the `expect` panic on a missing key,
  and `SendEffect` records the returned value, the cache afterwards and the
  worker (if any) handed to `maybe_shutdown_worker` for detached shutdown;
* `tokio_util`'s `CancellationToken::run_until_cancelled`, both at
  completion level (which future resolves first) and at the level of a
  single decisive poll (the library polls the cancellation future before
  the body, so a simultaneous arrival resolves to cancellation).
-/

namespace WorkersCacheModel

/-- Destination key; stands for `std::net::SocketAddr`, of which only
equality is used. -/
abbrev SocketAddr := Nat

/-- Opaque transaction-batch payload. -/
abbrev TransactionBatch := Nat

/-- The closed error taxonomy `WorkersCacheError`. -/
inductive WorkersCacheError where
  | ReceiverDropped
  | FullChannel
  | TaskJoinFailure
  | ShutdownError
deriving DecidableEq, Repr

/-- Sender-side state of the bounded tokio mpsc channel feeding one worker
task: whether the receiving half has been dropped, the batches currently
buffered, and the buffer capacity. -/
structure Channel where
  closed : Bool
  queue : List TransactionBatch
  bufCap : Nat
deriving DecidableEq, Repr

/-- `WorkerInfo`: the per-worker bundle of channel sender, join handle
(abstracted to `joinFails`) and per-worker cancellation token (abstracted
to its boolean state). -/
structure WorkerInfo where
  sender : Channel
  cancel : Bool
  joinFails : Bool
deriving DecidableEq, Repr

/-- `WorkerInfo::try_send_transactions`: tokio's `try_send` fails with
`Closed` when the receiver is dropped (mapped to `ReceiverDropped`) and
with `Full` when the buffer is saturated (mapped to `FullChannel`);
otherwise the batch is enqueued.  Returns the result together with the
updated channel-owning worker state. -/
def WorkerInfo.try_send_transactions (w : WorkerInfo) (txs_batch : TransactionBatch) :
    Except WorkersCacheError Unit × WorkerInfo :=
  if w.sender.closed then (.error .ReceiverDropped, w)
  else if w.sender.bufCap ≤ w.sender.queue.length then (.error .FullChannel, w)
  else (.ok (), { w with sender := { w.sender with queue := w.sender.queue ++ [txs_batch] } })

/-- `WorkerInfo::send_transactions`: the blocking send, in the case where
its future runs to completion (the wait for capacity is abstracted away):
it fails with `ReceiverDropped` iff the receiver is gone, otherwise the
batch is enqueued. -/
def WorkerInfo.send_transactions (w : WorkerInfo) (txs_batch : TransactionBatch) :
    Except WorkersCacheError Unit × WorkerInfo :=
  if w.sender.closed then (.error .ReceiverDropped, w)
  else (.ok (), { w with sender := { w.sender with queue := w.sender.queue ++ [txs_batch] } })

/-- Observable steps of `WorkerInfo::shutdown`, in execution order. -/
inductive WorkerEvent where
  | cancelSet
  | senderDropped
  | taskAwaited
deriving DecidableEq, Repr

/-- `WorkerInfo::shutdown`: cancels the worker's own token, drops the
sender, then awaits the join handle; the result is `TaskJoinFailure`
exactly when the join fails.  The event list records the order in which
the three steps execute. -/
def WorkerInfo.shutdown (w : WorkerInfo) : Except WorkersCacheError Unit × List WorkerEvent :=
  let afterCancel := [WorkerEvent.cancelSet]
  let afterDrop := afterCancel ++ [WorkerEvent.senderDropped]
  let joinRes : Except WorkersCacheError Unit :=
    if w.joinFails then .error .TaskJoinFailure else .ok ()
  (joinRes, afterDrop ++ [WorkerEvent.taskAwaited])

/-- The `lru` crate's cache as used by `workers_cache.rs`: entries are kept
most-recently-used first. -/
structure LruCache (α : Type) where
  cap : Nat
  entries : List (SocketAddr × α)
deriving Repr

/-- `LruCache::contains`: membership test; does not change recency. -/
def LruCache.contains (c : LruCache α) (k : SocketAddr) : Bool :=
  c.entries.any fun p => p.1 == k

/-- Read the value stored under `k` without changing recency (used to state
theorems; the crate's `peek`). -/
def LruCache.peek (c : LruCache α) (k : SocketAddr) : Option α :=
  (c.entries.find? fun p => p.1 == k).map fun p => p.2

/-- `LruCache::get`: looks the key up and, when present, moves the entry to
the most-recently-used position. -/
def LruCache.get (c : LruCache α) (k : SocketAddr) : Option (α × LruCache α) :=
  match c.entries.find? fun p => p.1 == k with
  | none => none
  | some p => some (p.2, { c with entries := p :: c.entries.filter fun q => ! (q.1 == k) })

/-- `LruCache::push`: if the key is present, replaces its value, moves it to
the front and returns the old pair; otherwise, when the cache is at
capacity, evicts the least-recently-used entry (the last one) and returns
it; otherwise inserts at the front returning nothing.  (The crate compares
`len == cap`; with capacity `0` on an empty cache the crate's behaviour is
undefined, modelled here as a plain insert.) -/
def LruCache.push (c : LruCache α) (k : SocketAddr) (v : α) :
    Option (SocketAddr × α) × LruCache α :=
  match c.entries.find? fun p => p.1 == k with
  | some p =>
      (some (k, p.2), { c with entries := (k, v) :: c.entries.filter fun q => ! (q.1 == k) })
  | none =>
      if c.entries.length == c.cap then
        match c.entries.getLast? with
        | none => (none, { c with entries := [(k, v)] })
        | some lruEntry => (some lruEntry, { c with entries := (k, v) :: c.entries.dropLast })
      else
        (none, { c with entries := (k, v) :: c.entries })

/-- `LruCache::pop`: removes the entry under `k`, if any, returning its
value; other entries keep their relative order. -/
def LruCache.pop (c : LruCache α) (k : SocketAddr) : Option α × LruCache α :=
  match c.entries.find? fun p => p.1 == k with
  | none => (none, c)
  | some p => (some p.2, { c with entries := c.entries.filter fun q => ! (q.1 == k) })

/-- `LruCache::pop_lru`: removes and returns the least-recently-used entry
(the last one). -/
def LruCache.popLru (c : LruCache α) : Option (SocketAddr × α) × LruCache α :=
  match c.entries.getLast? with
  | none => (none, c)
  | some p => (some p, { c with entries := c.entries.dropLast })

/-- Write back the state of the worker stored under `k` (its channel is
shared with the sending call), leaving key set and recency order
unchanged. -/
def LruCache.update (c : LruCache α) (k : SocketAddr) (v : α) : LruCache α :=
  { c with entries := c.entries.map fun p => if p.1 == k then (k, v) else p }

instance [DecidableEq α] : DecidableEq (LruCache α) := fun a b => by
  cases a; cases b
  exact decidable_of_iff _ (by rw [LruCache.mk.injEq])

/-- `WorkersCache`: the LRU map of workers plus the cache-wide cancellation
token (abstracted to its boolean state). -/
structure WorkersCache where
  workers : LruCache WorkerInfo
  cancel : Bool
deriving DecidableEq, Repr

/-- `ShutdownWorker`: an evicted or removed worker together with the key it
belonged to. -/
structure ShutdownWorker where
  leader : SocketAddr
  worker : WorkerInfo
deriving DecidableEq, Repr

/-- `WorkersCache::new`. -/
def WorkersCache.new (capacity : Nat) (cancel : Bool) : WorkersCache :=
  { workers := { cap := capacity, entries := [] }, cancel := cancel }

/-- `WorkersCache::contains`. -/
def WorkersCache.contains (c : WorkersCache) (peer : SocketAddr) : Bool :=
  c.workers.contains peer

/-- `WorkersCache::push`: delegates to the LRU push and wraps a displaced
entry as a `ShutdownWorker`. -/
def WorkersCache.push (c : WorkersCache) (leader : SocketAddr) (peer_worker : WorkerInfo) :
    Option ShutdownWorker × WorkersCache :=
  match c.workers.push leader peer_worker with
  | (some p, workers) => (some { leader := p.1, worker := p.2 }, { c with workers := workers })
  | (none, workers) => (none, { c with workers := workers })

/-- `WorkersCache::pop`. -/
def WorkersCache.pop (c : WorkersCache) (leader : SocketAddr) :
    Option ShutdownWorker × WorkersCache :=
  match c.workers.pop leader with
  | (some w, workers) => (some { leader := leader, worker := w }, { c with workers := workers })
  | (none, workers) => (none, { c with workers := workers })

/-- Effect of one delivery call: the returned value, the cache afterwards,
and the worker (if any) handed to `maybe_shutdown_worker` for detached
shutdown.  A whole-result of `none` at the call site models the `expect`
panic on a missing key. -/
structure SendEffect where
  res : Except WorkersCacheError Unit
  cache : WorkersCache
  detached : Option ShutdownWorker
deriving Repr

/-- `WorkersCache::try_send_transactions_to_address`: fails immediately with
`ShutdownError` when the cache-wide token is cancelled; otherwise looks the
worker up (refreshing recency; panics — `none` — when absent), performs the
non-blocking send, and on `ReceiverDropped` pops the entry and hands it to
the detach helper while still returning the error. -/
def WorkersCache.try_send_transactions_to_address (c : WorkersCache) (peer : SocketAddr)
    (txs_batch : TransactionBatch) : Option SendEffect :=
  if c.cancel then some { res := .error .ShutdownError, cache := c, detached := none }
  else
    match c.workers.get peer with
    | none => none
    | some (current_worker, workers1) =>
        match current_worker.try_send_transactions txs_batch with
        | (.error .ReceiverDropped, _) =>
            some { res := .error .ReceiverDropped,
                   cache := { c with workers := (workers1.pop peer).2 },
                   detached :=
                     (workers1.pop peer).1.map fun wi => { leader := peer, worker := wi } }
        | (r, w1) =>
            some { res := r,
                   cache := { c with workers := workers1.update peer w1 },
                   detached := none }

/-- Single decisive poll of `CancellationToken::run_until_cancelled`: the
library polls the cancellation future before the body, so when both are
ready the cancellation wins and the body's result is discarded. -/
inductive Poll (α : Type) where
  | ready (a : α)
  | pending
deriving DecidableEq, Repr

/-- One poll of `run_until_cancelled` (see `Poll`). -/
def run_until_cancelled_poll (cancellation : Poll Unit) (body : Poll α) :
    Poll (Option α) :=
  match cancellation with
  | .ready _ => .ready none
  | .pending =>
      match body with
      | .ready a => .ready (some a)
      | .pending => .pending

/-- Completion-level model of `run_until_cancelled`: `cancelledFirst` says
whether the cancellation future resolves no later than the body does (in
particular it is forced when the token is already cancelled at the first
poll, in which case the body is never polled). -/
def run_until_cancelled (cancelledFirst : Bool) (body : α) : Option α :=
  if cancelledFirst then none else some body

/-- Body of `WorkersCache::send_transactions_to_address` (the async block
raced against the token): look the worker up (panic — `none` — when
absent), perform the blocking send, and on `ReceiverDropped` pop the entry
and hand it to the detach helper while still returning the error. -/
def WorkersCache.send_body (c : WorkersCache) (peer : SocketAddr)
    (txs_batch : TransactionBatch) : Option SendEffect :=
  match c.workers.get peer with
  | none => none
  | some (current_worker, workers1) =>
      match current_worker.send_transactions txs_batch with
      | (.error .ReceiverDropped, _) =>
          some { res := .error .ReceiverDropped,
                 cache := { c with workers := (workers1.pop peer).2 },
                 detached :=
                   (workers1.pop peer).1.map fun wi => { leader := peer, worker := wi } }
      | (r, w1) =>
          some { res := r,
                 cache := { c with workers := workers1.update peer w1 },
                 detached := none }

/-- `WorkersCache::send_transactions_to_address`: races the body against the
cache-wide token via `run_until_cancelled`; a cancelled run is turned into
`Err(ShutdownError)` by the `unwrap_or`.  `cancelFires` is the schedule
oracle: whether the cancellation resolves before the body completes. -/
def WorkersCache.send_transactions_to_address (c : WorkersCache) (peer : SocketAddr)
    (txs_batch : TransactionBatch) (cancelFires : Bool) : Option SendEffect :=
  match run_until_cancelled (c.cancel || cancelFires) (c.send_body peer txs_batch) with
  | none => some { res := .error .ShutdownError, cache := c, detached := none }
  | some none => none
  | some (some eff) => some eff

theorem LruCache.popLru_some_length {α : Type} {c rest : LruCache α} {p : SocketAddr × α}
    (h : c.popLru = (some p, rest)) : rest.entries.length < c.entries.length := by
  unfold LruCache.popLru at h
  cases e : c.entries.getLast? with
  | none => rw [e] at h; simp at h
  | some q =>
      rw [e] at h
      simp only [Prod.mk.injEq] at h
      obtain ⟨-, h2⟩ := h
      subst h2
      have hne : c.entries ≠ [] := by
        intro hnil
        rw [hnil] at e
        simp at e
      have hpos : 0 < c.entries.length := List.length_pos.mpr hne
      simp only [List.length_dropLast]
      omega

/-- Drain loop of `WorkersCache::shutdown`: repeatedly `pop_lru` and shut
the popped worker down inline, recording each per-worker result (the code
only logs a failure and keeps draining).  Returns the cache state at loop
exit together with the log, in drain order. -/
def shutdownDrain (lru : LruCache WorkerInfo) :
    LruCache WorkerInfo × List (SocketAddr × Except WorkersCacheError Unit) :=
  match h : lru.popLru with
  | (none, _) => (lru, [])
  | (some lw, rest) =>
      let res := (lw.2.shutdown).1
      let tail := shutdownDrain rest
      (tail.1, (lw.1, res) :: tail.2)
termination_by lru.entries.length
decreasing_by
  exact LruCache.popLru_some_length h

/-- `WorkersCache::shutdown`: sets the cache-wide cancellation token, then
drains all workers in LRU order, shutting each down inline.  Returns the
final cache and the log of per-worker shutdown results. -/
def WorkersCache.shutdown (c : WorkersCache) :
    WorkersCache × List (SocketAddr × Except WorkersCacheError Unit) :=
  let c1 : WorkersCache := { c with cancel := true }
  ({ c1 with workers := (shutdownDrain c1.workers).1 }, (shutdownDrain c1.workers).2)

/-- One mutating cache operation, for stating properties of arbitrary
operation sequences. -/
inductive CacheOp where
  | pushOp (k : SocketAddr) (w : WorkerInfo)
  | popOp (k : SocketAddr)
  | trySendOp (k : SocketAddr) (b : TransactionBatch)
  | sendOp (k : SocketAddr) (b : TransactionBatch) (cancelFires : Bool)
deriving Repr

/-- Apply one operation to the cache, keeping the cache unchanged when a
delivery call panics on a missing key. -/
def applyOp (c : WorkersCache) (op : CacheOp) : WorkersCache :=
  match op with
  | .pushOp k w => (c.push k w).2
  | .popOp k => (c.pop k).2
  | .trySendOp k b =>
      match c.try_send_transactions_to_address k b with
      | some eff => eff.cache
      | none => c
  | .sendOp k b cf =>
      match c.send_transactions_to_address k b cf with
      | some eff => eff.cache
      | none => c

/-- Apply a sequence of operations left to right. -/
def applyOps (c : WorkersCache) (ops : List CacheOp) : WorkersCache :=
  ops.foldl applyOp c

/-- A healthy sample worker: open channel with buffer capacity 1, nothing
buffered. -/
def sampleWorker : WorkerInfo :=
  { sender := { closed := false, queue := [], bufCap := 1 }, cancel := false, joinFails := false }

/-- A worker whose receiver has been dropped. -/
def droppedWorker : WorkerInfo :=
  { sender := { closed := true, queue := [], bufCap := 1 }, cancel := false, joinFails := false }

/-- A worker whose channel buffer is saturated. -/
def fullWorker : WorkerInfo :=
  { sender := { closed := false, queue := [7], bufCap := 1 }, cancel := false, joinFails := false }

/-! ### Auxiliary lemmas -/

theorem LruCache.contains_false_iff {α : Type} (c : LruCache α) (k : SocketAddr) :
    c.contains k = false ↔ (c.entries.find? fun p => p.1 == k) = none := by
  simp [LruCache.contains, List.any_eq_false, List.find?_eq_none]

theorem filter_key_contains_false {α : Type} (l : List (SocketAddr × α)) (k : SocketAddr) :
    ((l.filter fun q => ! (q.1 == k)).any fun q => q.1 == k) = false := by
  simp only [List.any_eq_false]
  intro x hx
  have hmem := List.mem_filter.mp hx
  simpa using hmem.2

theorem length_filter_key_lt {α : Type} {l : List (SocketAddr × α)} {k : SocketAddr}
    {p : SocketAddr × α} (h : (l.find? fun q => q.1 == k) = some p) :
    (l.filter fun q => ! (q.1 == k)).length < l.length := by
  rw [List.length_filter_lt_length_iff_exists]
  exact ⟨p, List.mem_of_find?_eq_some h, by simpa using List.find?_some h⟩

theorem LruCache.get_of_peek {α : Type} {c : LruCache α} {k : SocketAddr} {w : α}
    (h : c.peek k = some w) :
    ∃ p, (c.entries.find? fun q => q.1 == k) = some p ∧ p.2 = w ∧ (p.1 == k) = true ∧
      c.get k = some (w, { c with entries := p :: c.entries.filter fun q => ! (q.1 == k) }) := by
  unfold LruCache.peek at h
  cases e : c.entries.find? fun q => q.1 == k with
  | none => rw [e] at h; simp at h
  | some p =>
      rw [e] at h
      simp only [Option.map_some', Option.some.injEq] at h
      refine ⟨p, rfl, h, by simpa using List.find?_some e, ?_⟩
      unfold LruCache.get
      rw [e]
      simp [h]

theorem LruCache.get_some_spec {α : Type} {c c' : LruCache α} {k : SocketAddr} {v : α}
    (h : c.get k = some (v, c')) :
    c'.cap = c.cap ∧ c'.entries.length ≤ c.entries.length := by
  unfold LruCache.get at h
  cases e : c.entries.find? fun q => q.1 == k with
  | none => rw [e] at h; simp at h
  | some p =>
      rw [e] at h
      simp only [Option.some.injEq, Prod.mk.injEq] at h
      obtain ⟨-, h2⟩ := h
      subst h2
      refine ⟨rfl, ?_⟩
      have := length_filter_key_lt e
      simp only [List.length_cons]
      omega

theorem LruCache.pop_spec {α : Type} (c : LruCache α) (k : SocketAddr) :
    (c.pop k).2.cap = c.cap ∧ (c.pop k).2.entries.length ≤ c.entries.length := by
  unfold LruCache.pop
  split
  · exact ⟨rfl, le_refl _⟩
  · exact ⟨rfl, List.length_filter_le _ _⟩

theorem LruCache.update_spec {α : Type} (c : LruCache α) (k : SocketAddr) (v : α) :
    (c.update k v).cap = c.cap ∧ (c.update k v).entries.length = c.entries.length := by
  simp [LruCache.update]

theorem LruCache.push_cap {α : Type} (c : LruCache α) (k : SocketAddr) (v : α) :
    (c.push k v).2.cap = c.cap := by
  unfold LruCache.push
  split
  · rfl
  · split
    · split <;> rfl
    · rfl

theorem LruCache.length_push_le {α : Type} {c : LruCache α} (hcap : 0 < c.cap)
    (hle : c.entries.length ≤ c.cap) (k : SocketAddr) (v : α) :
    (c.push k v).2.entries.length ≤ c.cap := by
  unfold LruCache.push
  split
  · next p h =>
      have := length_filter_key_lt h
      simp only [List.length_cons]
      omega
  · split
    · next hlen =>
        split
        · next e =>
            have : c.entries = [] := by
              rwa [← List.getLast?_eq_none_iff]
            simp [this] at hlen ⊢
            omega
        · next p e =>
            have hne : c.entries ≠ [] := by
              intro hnil
              rw [hnil] at e
              simp at e
            have hpos : 0 < c.entries.length := List.length_pos.mpr hne
            have hlen' : c.entries.length = c.cap := by simpa using hlen
            simp only [List.length_cons, List.length_dropLast]
            omega
    · next hlen =>
        have hne : c.entries.length ≠ c.cap := by simpa using hlen
        simp only [List.length_cons]
        omega

theorem shutdownDrain_spec (lru : LruCache WorkerInfo) :
    shutdownDrain lru =
      ({ lru with entries := [] },
       lru.entries.reverse.map fun p => (p.1, (p.2.shutdown).1)) := by
  obtain ⟨cap, l⟩ := lru
  induction l using List.reverseRecOn with
  | nil =>
      rw [shutdownDrain]
      simp [LruCache.popLru]
  | append_singleton l x ih =>
      have hpop : LruCache.popLru ⟨cap, l ++ [x]⟩ = (some x, ⟨cap, l⟩) := by
        simp [LruCache.popLru, List.getLast?_concat, List.dropLast_concat]
      rw [shutdownDrain]
      split
      · next h => rw [hpop] at h; simp at h
      · next lw rest h =>
          rw [hpop] at h
          simp only [Prod.mk.injEq, Option.some.injEq] at h
          obtain ⟨h1, h2⟩ := h
          subst h1
          subst h2
          rw [ih]
          simp

theorem WorkersCache.push_workers (c : WorkersCache) (k : SocketAddr) (w : WorkerInfo) :
    ((c.push k w).2).workers = (c.workers.push k w).2 := by
  unfold WorkersCache.push
  split <;> next heq => rw [heq]

theorem WorkersCache.pop_workers (c : WorkersCache) (k : SocketAddr) :
    ((c.pop k).2).workers = (c.workers.pop k).2 := by
  unfold WorkersCache.pop
  split <;> next heq => rw [heq]

theorem WorkersCache.trySend_cache_spec (c : WorkersCache) (peer : SocketAddr)
    (b : TransactionBatch) :
    ∀ {eff}, c.try_send_transactions_to_address peer b = some eff →
      eff.cache.workers.cap = c.workers.cap ∧
      eff.cache.workers.entries.length ≤ c.workers.entries.length := by
  intro eff h
  unfold WorkersCache.try_send_transactions_to_address at h
  split at h
  · simp only [Option.some.injEq] at h
    subst h
    exact ⟨rfl, le_refl _⟩
  · split at h
    · exact absurd h (by simp)
    · next w workers1 hget =>
        obtain ⟨hcap1, hlen1⟩ := LruCache.get_some_spec hget
        split at h <;>
          (simp only [Option.some.injEq] at h; subst h)
        · obtain ⟨hcap2, hlen2⟩ := LruCache.pop_spec workers1 peer
          exact ⟨hcap2.trans hcap1, hlen2.trans hlen1⟩
        · obtain ⟨hcap2, hlen2⟩ := LruCache.update_spec workers1 peer _
          exact ⟨hcap2.trans hcap1, hlen2.le.trans hlen1⟩

theorem WorkersCache.sendBody_cache_spec (c : WorkersCache) (peer : SocketAddr)
    (b : TransactionBatch) :
    ∀ {eff}, c.send_body peer b = some eff →
      eff.cache.workers.cap = c.workers.cap ∧
      eff.cache.workers.entries.length ≤ c.workers.entries.length := by
  intro eff h
  unfold WorkersCache.send_body at h
  split at h
  · exact absurd h (by simp)
  · next w workers1 hget =>
      obtain ⟨hcap1, hlen1⟩ := LruCache.get_some_spec hget
      split at h <;>
        (simp only [Option.some.injEq] at h; subst h)
      · obtain ⟨hcap2, hlen2⟩ := LruCache.pop_spec workers1 peer
        exact ⟨hcap2.trans hcap1, hlen2.trans hlen1⟩
      · obtain ⟨hcap2, hlen2⟩ := LruCache.update_spec workers1 peer _
        exact ⟨hcap2.trans hcap1, hlen2.le.trans hlen1⟩

theorem WorkersCache.send_cache_spec (c : WorkersCache) (peer : SocketAddr)
    (b : TransactionBatch) (cf : Bool) :
    ∀ {eff}, c.send_transactions_to_address peer b cf = some eff →
      eff.cache.workers.cap = c.workers.cap ∧
      eff.cache.workers.entries.length ≤ c.workers.entries.length := by
  intro eff h
  unfold WorkersCache.send_transactions_to_address at h
  cases hcf : c.cancel || cf with
  | true =>
      rw [hcf] at h
      simp [run_until_cancelled] at h
      subst h
      exact ⟨rfl, le_refl _⟩
  | false =>
      rw [hcf] at h
      simp only [run_until_cancelled, Bool.false_eq_true, if_neg, ite_false] at h
      cases hb : c.send_body peer b with
      | none => rw [hb] at h; simp at h
      | some eff1 =>
          rw [hb] at h
          simp only [Option.some.injEq] at h
          subst h
          exact WorkersCache.sendBody_cache_spec c peer b hb

/-- The length invariant preserved by every cache operation. -/
def lenInv (c : WorkersCache) : Prop :=
  c.workers.entries.length ≤ c.workers.cap

theorem applyOp_spec (c : WorkersCache) (op : CacheOp) (hcap : 0 < c.workers.cap)
    (h : lenInv c) :
    (applyOp c op).workers.cap = c.workers.cap ∧ lenInv (applyOp c op) := by
  unfold lenInv at h ⊢
  cases op with
  | pushOp k w =>
      simp only [applyOp, WorkersCache.push_workers]
      exact ⟨LruCache.push_cap _ _ _,
        by rw [LruCache.push_cap]; exact LruCache.length_push_le hcap h k w⟩
  | popOp k =>
      simp only [applyOp, WorkersCache.pop_workers]
      obtain ⟨hc, hl⟩ := LruCache.pop_spec c.workers k
      exact ⟨hc, by rw [hc]; exact hl.trans h⟩
  | trySendOp k b =>
      simp only [applyOp]
      split
      · next eff heff =>
          obtain ⟨hc, hl⟩ := WorkersCache.trySend_cache_spec c k b heff
          exact ⟨hc, by rw [hc]; exact hl.trans h⟩
      · exact ⟨rfl, h⟩
  | sendOp k b cf =>
      simp only [applyOp]
      split
      · next eff heff =>
          obtain ⟨hc, hl⟩ := WorkersCache.send_cache_spec c k b cf heff
          exact ⟨hc, by rw [hc]; exact hl.trans h⟩
      · exact ⟨rfl, h⟩

theorem applyOps_spec (ops : List CacheOp) (c : WorkersCache) (hcap : 0 < c.workers.cap)
    (h : lenInv c) :
    (applyOps c ops).workers.cap = c.workers.cap ∧ lenInv (applyOps c ops) := by
  induction ops generalizing c with
  | nil => exact ⟨rfl, h⟩
  | cons op ops ih =>
      obtain ⟨hc, hl⟩ := applyOp_spec c op hcap h
      obtain ⟨hc', hl'⟩ := ih (applyOp c op) (hc ▸ hcap) hl
      exact ⟨hc'.trans hc, hl'⟩

theorem LruCache.contains_pop_self {α : Type} (c : LruCache α) (k : SocketAddr) :
    ((c.pop k).2).contains k = false := by
  unfold LruCache.pop
  split
  · next hfind => exact (LruCache.contains_false_iff c k).mpr hfind
  · simp only [LruCache.contains]
    exact filter_key_contains_false _ _

theorem find?_key_cons {α : Type} (p : SocketAddr × α) (l : List (SocketAddr × α))
    (k : SocketAddr) (hpk : (p.1 == k) = true) :
    List.find? (fun q => q.1 == k) (p :: l) = some p := by
  simp [List.find?, hpk]

theorem LruCache.pop_cons {α : Type} (cap : Nat) (p : SocketAddr × α)
    (l : List (SocketAddr × α)) (k : SocketAddr) (hpk : (p.1 == k) = true) :
    ((⟨cap, p :: l⟩ : LruCache α).pop k).1 = some p.2 := by
  unfold LruCache.pop
  rw [find?_key_cons p l k hpk]

/-! ### Claim theorems -/

/-- Claim C1: after cache-wide shutdown has run (so the cache-wide
cancellation token is set), every subsequent delivery call — non-blocking or
blocking, even for a destination that was never pushed — returns
ShutdownError, leaves the cache exactly as it was, and detaches no
worker. -/
theorem C1_shutdown_gates_all_sends (c : WorkersCache) (peer : SocketAddr)
    (b : TransactionBatch) (cf : Bool) :
    ((c.shutdown).1.try_send_transactions_to_address peer b
        = some { res := .error .ShutdownError, cache := (c.shutdown).1, detached := none })
  ∧ ((c.shutdown).1.send_transactions_to_address peer b cf
        = some { res := .error .ShutdownError, cache := (c.shutdown).1, detached := none }) := by
  have hc : (c.shutdown).1.cancel = true := rfl
  constructor
  · unfold WorkersCache.try_send_transactions_to_address
    rw [if_pos hc]
  · unfold WorkersCache.send_transactions_to_address
    rw [hc]
    simp [run_until_cancelled]

/-- Claim C3: a delivery call (non-blocking or blocking) on a present key
whose send fails with ReceiverDropped removes the entry, hands exactly that
worker to the detach helper, and still returns ReceiverDropped. -/
theorem C3_receiver_dropped_prunes (c : WorkersCache) (peer : SocketAddr)
    (b : TransactionBatch) (w : WorkerInfo)
    (hcancel : c.cancel = false)
    (hpeek : c.workers.peek peer = some w)
    (hclosed : w.sender.closed = true) :
    (∃ eff, c.try_send_transactions_to_address peer b = some eff ∧
        eff.res = .error .ReceiverDropped ∧
        eff.cache.contains peer = false ∧
        eff.detached = some { leader := peer, worker := w })
  ∧ (∃ eff, c.send_transactions_to_address peer b false = some eff ∧
        eff.res = .error .ReceiverDropped ∧
        eff.cache.contains peer = false ∧
        eff.detached = some { leader := peer, worker := w }) := by
  obtain ⟨p, hfind, hp2, hpk, hget⟩ := LruCache.get_of_peek hpeek
  have htry : w.try_send_transactions b = (.error .ReceiverDropped, w) := by
    unfold WorkerInfo.try_send_transactions
    rw [if_pos hclosed]
  have hblk : w.send_transactions b = (.error .ReceiverDropped, w) := by
    unfold WorkerInfo.send_transactions
    rw [if_pos hclosed]
  have hpop :
      (({ c.workers with
            entries := p :: c.workers.entries.filter fun q => ! (q.1 == peer) } :
          LruCache WorkerInfo).pop peer).1 = some w := by
    rw [LruCache.pop_cons c.workers.cap p _ peer hpk, hp2]
  constructor
  · have heq : c.try_send_transactions_to_address peer b =
        some { res := .error .ReceiverDropped,
               cache := { c with workers :=
                 (({ c.workers with
                       entries := p :: c.workers.entries.filter fun q => ! (q.1 == peer) } :
                     LruCache WorkerInfo).pop peer).2 },
               detached := some { leader := peer, worker := w } } := by
      unfold WorkersCache.try_send_transactions_to_address
      rw [if_neg (by simp [hcancel]), hget]
      simp only [htry, hpop, Option.map_some']
    exact ⟨_, heq, rfl, LruCache.contains_pop_self _ peer, rfl⟩
  · have heq : c.send_transactions_to_address peer b false =
        some { res := .error .ReceiverDropped,
               cache := { c with workers :=
                 (({ c.workers with
                       entries := p :: c.workers.entries.filter fun q => ! (q.1 == peer) } :
                     LruCache WorkerInfo).pop peer).2 },
               detached := some { leader := peer, worker := w } } := by
      unfold WorkersCache.send_transactions_to_address
      rw [hcancel]
      simp only [run_until_cancelled, Bool.or_self, Bool.false_eq_true, if_false, ite_false]
      unfold WorkersCache.send_body
      rw [hget]
      simp only [hblk, hpop, Option.map_some', hcancel]
    exact ⟨_, heq, rfl, LruCache.contains_pop_self _ peer, rfl⟩

/-- Claim C5: a non-blocking delivery (cache live, key present) that fails
only because the channel buffer is saturated returns FullChannel, keeps the
entry (same stored worker state), and detaches nothing. -/
theorem C5_full_channel_keeps_entry (c : WorkersCache) (peer : SocketAddr)
    (b : TransactionBatch) (w : WorkerInfo)
    (hcancel : c.cancel = false)
    (hpeek : c.workers.peek peer = some w)
    (hopen : w.sender.closed = false)
    (hfull : w.sender.bufCap ≤ w.sender.queue.length) :
    ∃ eff, c.try_send_transactions_to_address peer b = some eff ∧
      eff.res = .error .FullChannel ∧
      eff.cache.contains peer = true ∧
      eff.cache.workers.peek peer = some w ∧
      eff.detached = none := by
  obtain ⟨p, hfind, hp2, hpk, hget⟩ := LruCache.get_of_peek hpeek
  have htry : w.try_send_transactions b = (.error .FullChannel, w) := by
    unfold WorkerInfo.try_send_transactions
    rw [if_neg (by simp [hopen]), if_pos (by simpa using hfull)]
  have heq : c.try_send_transactions_to_address peer b =
      some { res := .error .FullChannel,
             cache := { c with workers :=
               ({ c.workers with
                     entries := p :: c.workers.entries.filter fun q => ! (q.1 == peer) } :
                   LruCache WorkerInfo).update peer w },
             detached := none } := by
    unfold WorkersCache.try_send_transactions_to_address
    rw [if_neg (by simp [hcancel]), hget]
    simp only [htry]
  refine ⟨_, heq, rfl, ?_, ?_, rfl⟩
  · simp only [WorkersCache.contains, LruCache.contains, LruCache.update, List.any_map,
      List.map_cons, List.any_cons, if_pos hpk]
    simp
  · simp only [LruCache.peek, LruCache.update, List.map_cons, if_pos hpk]
    rw [find?_key_cons (peer, w) _ peer (by simp)]
    rfl

/-- Witness for claim C3 on a concrete single-entry cache whose worker
receiver has been dropped. -/
theorem C3_receiver_dropped_prunes_witness :
    (∃ eff, (WorkersCache.mk ⟨1, [(0, droppedWorker)]⟩ false).try_send_transactions_to_address
        0 9 = some eff ∧ eff.res = .error .ReceiverDropped ∧
        eff.cache.contains 0 = false ∧
        eff.detached = some { leader := 0, worker := droppedWorker })
  ∧ (∃ eff, (WorkersCache.mk ⟨1, [(0, droppedWorker)]⟩ false).send_transactions_to_address
        0 9 false = some eff ∧ eff.res = .error .ReceiverDropped ∧
        eff.cache.contains 0 = false ∧
        eff.detached = some { leader := 0, worker := droppedWorker }) :=
  C3_receiver_dropped_prunes ⟨⟨1, [(0, droppedWorker)]⟩, false⟩ 0 9 droppedWorker rfl
    (by decide) rfl

/-- Witness for claim C5 on a concrete single-entry cache whose worker
channel buffer is saturated. -/
theorem C5_full_channel_keeps_entry_witness :
    ∃ eff, (WorkersCache.mk ⟨1, [(0, fullWorker)]⟩ false).try_send_transactions_to_address
        0 9 = some eff ∧ eff.res = .error .FullChannel ∧
        eff.cache.contains 0 = true ∧
        eff.cache.workers.peek 0 = some fullWorker ∧
        eff.detached = none :=
  C5_full_channel_keeps_entry ⟨⟨1, [(0, fullWorker)]⟩, false⟩ 0 9 fullWorker rfl (by decide)
    rfl (by decide)

theorem WorkersCache.push_fst (c : WorkersCache) (k : SocketAddr) (w : WorkerInfo) :
    (c.push k w).1 = ((c.workers.push k w).1).map fun p => { leader := p.1, worker := p.2 } := by
  unfold WorkersCache.push
  split <;> next heq => simp [heq]

theorem WorkersCache.pop_fst (c : WorkersCache) (k : SocketAddr) :
    (c.pop k).1 = ((c.workers.pop k).1).map fun w => { leader := k, worker := w } := by
  unfold WorkersCache.pop
  split <;> next heq => simp [heq]

theorem LruCache.push_none_spec {α : Type} {c : LruCache α} {k : SocketAddr} {v : α}
    (h : (c.push k v).1 = none) :
    c.contains k = false ∧ (c.push k v).2.entries.length = c.entries.length + 1 := by
  unfold LruCache.push at h ⊢
  cases e : c.entries.find? fun p => p.1 == k with
  | some p => simp [e] at h
  | none =>
      simp only [e] at h ⊢
      refine ⟨(LruCache.contains_false_iff _ _).mpr e, ?_⟩
      by_cases hlen : (c.entries.length == c.cap) = true
      · simp only [hlen, if_true] at h ⊢
        cases eg : c.entries.getLast? with
        | none =>
            have hnil : c.entries = [] := List.getLast?_eq_none_iff.mp eg
            simp [eg, hnil]
        | some q => simp [eg] at h
      · simp [hlen]

/-- Claim C2: entry count never exceeds the construction capacity over any
operation sequence; an eviction on push of an absent key at capacity removes
exactly what pop-lru would remove; and in the concrete scenarios, capacity-2
push 0,1,2 evicts key 0, while a delivery lookup refreshes recency so the
later push evicts key 1 instead. -/
theorem C2_lru_capacity_and_eviction :
    (∀ (capacity : Nat) (cancel : Bool) (ops : List CacheOp), 0 < capacity →
        (applyOps (WorkersCache.new capacity cancel) ops).workers.entries.length ≤ capacity)
  ∧ (∀ (lru : LruCache WorkerInfo) (k : SocketAddr) (w : WorkerInfo),
        lru.contains k = false → lru.entries.length = lru.cap →
        (lru.push k w).1 = lru.popLru.1)
  ∧ ((((WorkersCache.new 2 false).push 0 sampleWorker).2.push 1 sampleWorker).2.push 2
        sampleWorker).1 = some { leader := 0, worker := sampleWorker }
  ∧ (((((WorkersCache.new 2 false).push 0 sampleWorker).2.push 1 sampleWorker).2.push 2
        sampleWorker).2.contains 0 = false
      ∧ ((((WorkersCache.new 2 false).push 0 sampleWorker).2.push 1 sampleWorker).2.push 2
        sampleWorker).2.contains 1 = true
      ∧ ((((WorkersCache.new 2 false).push 0 sampleWorker).2.push 1 sampleWorker).2.push 2
        sampleWorker).2.contains 2 = true)
  ∧ ((applyOp (((WorkersCache.new 2 false).push 0 sampleWorker).2.push 1 sampleWorker).2
        (CacheOp.trySendOp 0 5)).push 2 sampleWorker).1 =
      some { leader := 1, worker := sampleWorker } := by
  refine ⟨?_, ?_, by decide, by decide, by decide⟩
  · intro capacity cancel ops hcap
    obtain ⟨hc, hl⟩ := applyOps_spec ops (WorkersCache.new capacity cancel)
      (by simpa [WorkersCache.new] using hcap) (by simp [lenInv, WorkersCache.new])
    unfold lenInv at hl
    rw [hc] at hl
    simpa [WorkersCache.new] using hl
  · intro lru k w hcont hlen
    have hfind := (LruCache.contains_false_iff lru k).mp hcont
    unfold LruCache.push LruCache.popLru
    cases e : lru.entries.getLast? <;> simp [hfind, hlen, e]

/-- Witness for claim C2 at concrete inputs. -/
theorem C2_lru_capacity_and_eviction_witness :
    (applyOps (WorkersCache.new 2 false)
        [CacheOp.pushOp 0 sampleWorker, CacheOp.pushOp 1 sampleWorker,
          CacheOp.pushOp 2 sampleWorker]).workers.entries.length ≤ 2
  ∧ ((⟨2, [(1, sampleWorker), (0, sampleWorker)]⟩ : LruCache WorkerInfo).push 2 fullWorker).1 =
      (⟨2, [(1, sampleWorker), (0, sampleWorker)]⟩ : LruCache WorkerInfo).popLru.1 :=
  ⟨C2_lru_capacity_and_eviction.1 2 false _ (by decide),
   C2_lru_capacity_and_eviction.2.1 _ 2 fullWorker (by decide) (by decide)⟩

/-- Claim C4: cache-wide shutdown sets the cancellation token and then
removes and shuts down every entry inline in strict least-recently-used
order; a per-worker TaskJoinFailure is only recorded and never stops the
drain (the log equation holds for workers whose join fails too), and the
cache is empty at the end. -/
theorem C4_shutdown_drains_in_lru_order (c : WorkersCache) :
    (c.shutdown).1.cancel = true
  ∧ (c.shutdown).1.workers.entries = []
  ∧ (c.shutdown).2 = c.workers.entries.reverse.map fun p => (p.1, (p.2.shutdown).1) := by
  refine ⟨rfl, ?_, ?_⟩ <;> simp [WorkersCache.shutdown, shutdownDrain_spec]

/-- Claim C6: with the cache-wide cancellation token unset, a delivery call
for a key not in the cache hits the expect panic (modelled as the
none-valued outcome), for both delivery paths, rather than returning a
recoverable error. -/
theorem C6_missing_key_is_panic (c : WorkersCache) (peer : SocketAddr) (b : TransactionBatch)
    (hcancel : c.cancel = false) (habsent : c.workers.contains peer = false) :
    c.try_send_transactions_to_address peer b = none
  ∧ c.send_transactions_to_address peer b false = none := by
  have hfind := (LruCache.contains_false_iff c.workers peer).mp habsent
  have hget : c.workers.get peer = none := by
    unfold LruCache.get
    rw [hfind]
  constructor
  · unfold WorkersCache.try_send_transactions_to_address
    rw [if_neg (by simp [hcancel]), hget]
  · unfold WorkersCache.send_transactions_to_address
    rw [hcancel]
    simp only [run_until_cancelled, Bool.or_self, Bool.false_eq_true, if_false, ite_false]
    unfold WorkersCache.send_body
    rw [hget]

/-- Witness for claim C6 on an empty cache. -/
theorem C6_missing_key_is_panic_witness :
    (WorkersCache.new 1 false).try_send_transactions_to_address 0 0 = none
  ∧ (WorkersCache.new 1 false).send_transactions_to_address 0 0 false = none :=
  C6_missing_key_is_panic (WorkersCache.new 1 false) 0 0 rfl rfl

/-- Claim C7: a worker handle's shutdown sets its own cancellation token,
drops the sender, then awaits the task, in exactly that order; it returns
TaskJoinFailure precisely when awaiting the task fails and Ok precisely
otherwise. -/
theorem C7_worker_shutdown_steps (w : WorkerInfo) :
    (w.shutdown).2 = [WorkerEvent.cancelSet, WorkerEvent.senderDropped, WorkerEvent.taskAwaited]
  ∧ ((w.shutdown).1 = .error .TaskJoinFailure ↔ w.joinFails = true)
  ∧ ((w.shutdown).1 = .ok () ↔ w.joinFails = false) := by
  unfold WorkerInfo.shutdown
  cases hj : w.joinFails <;> simp

/-- Claim C8: the blocking send races its whole body against the cache-wide
cancellation: whenever the cancellation resolves first the call returns
ShutdownError regardless of the send outcome, and in the decisive poll of
run_until_cancelled a simultaneously-ready cancellation deterministically
beats a ready body. -/
theorem C8_cancellation_wins_race :
    (∀ (c : WorkersCache) (peer : SocketAddr) (b : TransactionBatch),
        ∃ eff, c.send_transactions_to_address peer b true = some eff ∧
          eff.res = .error .ShutdownError)
  ∧ (∀ bodyResult : Option SendEffect,
        run_until_cancelled_poll (Poll.ready ()) (Poll.ready bodyResult) = Poll.ready none) := by
  constructor
  · intro c peer b
    have heq : c.send_transactions_to_address peer b true =
        some { res := .error .ShutdownError, cache := c, detached := none } := by
      unfold WorkersCache.send_transactions_to_address
      simp [run_until_cancelled]
    exact ⟨_, heq, rfl⟩
  · intro bodyResult
    rfl

/-- Claim C9: pushing an already-present key returns the replaced old worker
wrapped with that same key (also below capacity), and a push returning
nothing implies the key was absent and no entry was evicted (the entry count
grows by exactly one). -/
theorem C9_push_replace_semantics (c : WorkersCache) (k : SocketAddr) (w old : WorkerInfo) :
    (c.workers.peek k = some old →
        (c.push k w).1 = some { leader := k, worker := old })
  ∧ ((c.push k w).1 = none →
        c.workers.contains k = false ∧
        (c.push k w).2.workers.entries.length = c.workers.entries.length + 1) := by
  constructor
  · intro hpeek
    rw [WorkersCache.push_fst]
    unfold LruCache.peek at hpeek
    cases e : c.workers.entries.find? fun p => p.1 == k with
    | none => rw [e] at hpeek; simp at hpeek
    | some p =>
        rw [e] at hpeek
        simp only [Option.map_some', Option.some.injEq] at hpeek
        unfold LruCache.push
        simp [e, hpeek]
  · intro hnone
    rw [WorkersCache.push_fst] at hnone
    have hnone' : (c.workers.push k w).1 = none := by
      cases hp : (c.workers.push k w).1 with
      | none => rfl
      | some p => rw [hp] at hnone; simp at hnone
    obtain ⟨h1, h2⟩ := LruCache.push_none_spec hnone'
    exact ⟨h1, by rw [WorkersCache.push_workers]; exact h2⟩

/-- Witness for claim C9: replacing below capacity returns the old worker
with the same key, and a fresh insert returns nothing while growing the
cache by one entry. -/
theorem C9_push_replace_semantics_witness :
    ((((WorkersCache.new 2 false).push 0 sampleWorker).2.push 0 fullWorker).1 =
        some { leader := 0, worker := sampleWorker })
  ∧ ((WorkersCache.new 2 false).workers.contains 1 = false ∧
      ((WorkersCache.new 2 false).push 1 sampleWorker).2.workers.entries.length =
        (WorkersCache.new 2 false).workers.entries.length + 1) :=
  ⟨(C9_push_replace_semantics ((WorkersCache.new 2 false).push 0 sampleWorker).2 0
      fullWorker sampleWorker).1 (by decide),
   (C9_push_replace_semantics (WorkersCache.new 2 false) 1 sampleWorker sampleWorker).2
      (by decide)⟩

/-- Claim C10: the cache-wide cancellation token gates only the two delivery
operations: push, pop and contains behave identically on a cancelled and on
a live cache holding the same workers, while both delivery operations — the
non-blocking and the blocking one, under any schedule — return ShutdownError
on the cancelled cache without touching its entries, so entries pushed after
shutdown are never delivered to. -/
theorem C10_cancel_gates_only_delivery (lru : LruCache WorkerInfo) (k : SocketAddr)
    (w : WorkerInfo) (b : TransactionBatch) (cf : Bool) :
    (WorkersCache.contains { workers := lru, cancel := true } k =
       WorkersCache.contains { workers := lru, cancel := false } k)
  ∧ ((WorkersCache.push { workers := lru, cancel := true } k w).1 =
       (WorkersCache.push { workers := lru, cancel := false } k w).1)
  ∧ ((WorkersCache.push { workers := lru, cancel := true } k w).2.workers =
       (WorkersCache.push { workers := lru, cancel := false } k w).2.workers)
  ∧ ((WorkersCache.pop { workers := lru, cancel := true } k).1 =
       (WorkersCache.pop { workers := lru, cancel := false } k).1)
  ∧ ((WorkersCache.pop { workers := lru, cancel := true } k).2.workers =
       (WorkersCache.pop { workers := lru, cancel := false } k).2.workers)
  ∧ (WorkersCache.try_send_transactions_to_address { workers := lru, cancel := true } k b =
       some { res := .error .ShutdownError, cache := { workers := lru, cancel := true },
              detached := none })
  ∧ (WorkersCache.send_transactions_to_address { workers := lru, cancel := true } k b cf =
       some { res := .error .ShutdownError, cache := { workers := lru, cancel := true },
              detached := none }) := by
  refine ⟨rfl, ?_, ?_, ?_, ?_, rfl, ?_⟩
  · rw [WorkersCache.push_fst, WorkersCache.push_fst]
  · rw [WorkersCache.push_workers, WorkersCache.push_workers]
  · rw [WorkersCache.pop_fst, WorkersCache.pop_fst]
  · rw [WorkersCache.pop_workers, WorkersCache.pop_workers]
  · unfold WorkersCache.send_transactions_to_address
    simp [run_until_cancelled]

end WorkersCacheModel
